import Mathlib

/-!
Verification of the CHRONO-HEALTH inference pipeline.

Shallow embedding of the repository's three source units:
* `supabase/functions/process_message/index.ts` — feature extraction
  (`FEATURE_NAMES`, `severityMap`, `extractSeverity`, `buildFeatureVector`);
* `supabase/functions/predict_disease/index.ts` — scaling, softmax and the
  request handler (`scaleInput`, `softmax`, the `serve` callback);
* `booster_min.js` — the deterministic placeholder scorer
  (`weightFor`, `predictXGB`).

Modelling conventions:
* JavaScript numbers are modelled by `JsNum`: a finite value carried as an
  exact rational, plus the IEEE-754 specials `+Infinity`, `-Infinity`, `NaN`.
  Finite arithmetic is exact (no rounding); the NaN/Infinity propagation rules
  follow IEEE-754 / ECMAScript.  `Math.exp` on finite arguments is an abstract
  parameter `expF : Rat -> JsNum` of the pipeline (its finite values are
  irrelevant to every claim settled here); real-valued numerical facts about
  softmax are proved against the idealised real model `softmaxR`.
* JavaScript strings are lists of characters; `toLowerCase` is modelled on the
  ASCII range, which covers every keyword and feature name in the source.
* Out-of-bounds array reads (`undefined`) flowing into arithmetic are modelled
  as `NaN`, and `undefined`/`NaN`/`0` are all falsy for the `|| 1` guard,
  matching ECMAScript coercion in the two places the handler reads them.
-/

namespace ChronoHealth

/-! ## JavaScript number model -/

/-- A JavaScript number: finite (exact rational), `+Infinity`, `-Infinity`,
or `NaN`. -/
inductive JsNum where
  | num (q : ℚ)
  | posInf
  | negInf
  | nan
deriving DecidableEq, Repr

/-- A JavaScript value as seen by `typeof v === "number"`: either a number or
some non-numeric value (string, null, undefined, object, ...), whose identity
is irrelevant to the scorer. -/
abbrev JsVal := Option JsNum

/-- IEEE/ECMAScript addition. -/
def jsAdd : JsNum → JsNum → JsNum
  | .nan, _ => .nan
  | _, .nan => .nan
  | .posInf, .negInf => .nan
  | .negInf, .posInf => .nan
  | .posInf, _ => .posInf
  | .negInf, _ => .negInf
  | .num _, .posInf => .posInf
  | .num _, .negInf => .negInf
  | .num a, .num b => .num (a + b)

/-- IEEE/ECMAScript negation. -/
def jsNeg : JsNum → JsNum
  | .num a => .num (-a)
  | .posInf => .negInf
  | .negInf => .posInf
  | .nan => .nan

/-- IEEE/ECMAScript subtraction (`x - y = x + (-y)`). -/
def jsSub (a b : JsNum) : JsNum := jsAdd a (jsNeg b)

/-- IEEE/ECMAScript multiplication. -/
def jsMul : JsNum → JsNum → JsNum
  | .nan, _ => .nan
  | _, .nan => .nan
  | .num a, .num b => .num (a * b)
  | .num a, .posInf => if a = 0 then .nan else if 0 < a then .posInf else .negInf
  | .num a, .negInf => if a = 0 then .nan else if 0 < a then .negInf else .posInf
  | .posInf, .num a => if a = 0 then .nan else if 0 < a then .posInf else .negInf
  | .negInf, .num a => if a = 0 then .nan else if 0 < a then .negInf else .posInf
  | .posInf, .posInf => .posInf
  | .posInf, .negInf => .negInf
  | .negInf, .posInf => .negInf
  | .negInf, .negInf => .posInf

/-- IEEE/ECMAScript division (the model's zero is `+0`). -/
def jsDiv : JsNum → JsNum → JsNum
  | .nan, _ => .nan
  | _, .nan => .nan
  | .num a, .num b =>
      if b = 0 then (if a = 0 then .nan else if 0 < a then .posInf else .negInf)
      else .num (a / b)
  | .num _, .posInf => .num 0
  | .num _, .negInf => .num 0
  | .posInf, .num b => if 0 ≤ b then .posInf else .negInf
  | .negInf, .num b => if 0 ≤ b then .negInf else .posInf
  | .posInf, .posInf => .nan
  | .posInf, .negInf => .nan
  | .negInf, .posInf => .nan
  | .negInf, .negInf => .nan

/-- Model of `Math.max` on two arguments: `NaN` absorbs, otherwise the larger value. -/
def jsMax2 : JsNum → JsNum → JsNum
  | .nan, _ => .nan
  | _, .nan => .nan
  | .posInf, _ => .posInf
  | _, .posInf => .posInf
  | .negInf, b => b
  | a, .negInf => a
  | .num a, .num b => .num (max a b)

/-- Model of `Math.max(...arr)`: `-Infinity` when the list is empty. -/
def jsMaxList (l : List JsNum) : JsNum := l.foldl jsMax2 .negInf

/-- JavaScript strict equality `===` on numbers: `NaN` equals nothing. -/
def jsStrictEq : JsNum → JsNum → Bool
  | .nan, _ => false
  | _, .nan => false
  | .num a, .num b => a == b
  | .posInf, .posInf => true
  | .negInf, .negInf => true
  | _, _ => false

/-- ECMAScript falsiness of a number-or-undefined read: `0`, `NaN` (and the
`undefined` that an out-of-bounds read produces, conflated with `NaN` here)
are falsy; infinities and non-zero finite values are truthy. -/
def jsFalsy : JsNum → Bool
  | .num a => a == 0
  | .nan => true
  | _ => false

/-! ## process_message/index.ts — feature extraction -/

/-- A JavaScript string, as a list of characters. -/
abbrev Str := List Char

/-- ASCII `toLowerCase` on one character (the source's `String.toLowerCase`,
restricted to the ASCII range that all keywords and feature names use). -/
def lowerChar (c : Char) : Char :=
  if h : 65 ≤ c.toNat ∧ c.toNat ≤ 90 then
    ⟨⟨⟨c.toNat + 32, by omega⟩⟩, Or.inl (by
      have := h.2
      show c.toNat + 32 < 55296
      omega)⟩
  else c

/-- Model of `msg.toLowerCase()`. -/
def lowerStr (s : Str) : Str := s.map lowerChar

/-- Does the second string occur at the head of the first? -/
def startsWithStr : Str → Str → Bool
  | _, [] => true
  | [], _ :: _ => false
  | a :: as, b :: bs => (a == b) && startsWithStr as bs

/-- JavaScript `String.prototype.includes`: substring occurrence. -/
def hasSub : Str → Str → Bool
  | [], pat => startsWithStr [] pat
  | a :: t, pat => startsWithStr (a :: t) pat || hasSub t pat

/-- Model of `name.replace(/_/g, " ")`. -/
def replUnderscores (s : Str) : Str :=
  s.map (fun c => if c = '_' then ' ' else c)

/-- The 46 feature names, in source order (process_message/index.ts lines
2–49). -/
def FEATURE_NAMES : List String :=
  ["age", "gender", "smoker", "heart_rate", "blood_pressure",
   "cholesterol_level", "fever", "cough", "fatigue", "shortness_of_breath",
   "headache", "runny_nose", "sore_throat", "chest_pain", "body_ache",
   "nausea", "vomiting", "diarrhea", "dizziness", "chills", "loss_of_smell",
   "loss_of_taste", "wheezing", "rash", "eye_irritation", "ear_pain",
   "sweating", "joint_pain", "abdominal_pain", "back_pain", "blurred_vision",
   "dry_cough", "wet_cough", "sinus_pressure", "sneezing", "rapid_heartbeat",
   "slow_heartbeat", "dehydration", "loss_of_appetite", "sleep_disturbance",
   "anxiety", "irritability", "muscle_spasm", "skin_redness", "itchiness",
   "breathing_difficulty"]

/-- The severity lexicon, in the source's declared (insertion) order, which
`Object.entries` preserves for these string keys. -/
def severityMap : List (String × ℕ) :=
  [("severe", 3), ("high", 3), ("bad", 3), ("moderate", 2), ("medium", 2),
   ("mild", 1), ("slight", 1)]

/-- The `for (const [key, val] of Object.entries(severityMap))` loop with its
early `return val`. -/
def extractSeverityAux : List (String × ℕ) → Str → ℕ
  | [], _ => 1
  | (key, val) :: rest, msg =>
      if hasSub msg key.data then val else extractSeverityAux rest msg

/-- Model of `extractSeverity(msg)`: lower-case the message, scan the lexicon in
declared order, return the first match's level, default 1. -/
def extractSeverity (msg : Str) : ℕ :=
  extractSeverityAux severityMap (lowerStr msg)

/-- The vital defaults written into `vec[0] .. vec[5]`; every other slot
starts from the `Array(...).fill(0)` initialisation. -/
def vitalValue : ℕ → ℕ
  | 0 => 25
  | 1 => 1
  | 2 => 0
  | 3 => 80
  | 4 => 120
  | 5 => 180
  | _ => 0

/-- Index-carrying map, mirroring `FEATURE_NAMES.forEach((name, i) => ...)` /
`arr.map((v, i) => ...)`. -/
def mapIdxAux {α β : Type} (f : ℕ → α → β) : ℕ → List α → List β
  | _, [] => []
  | i, x :: t => f i x :: mapIdxAux f (i + 1) t

/-- Model of `buildFeatureVector(message)`: vitals at slots 0–5, and for each later
slot the message-wide severity when the underscores-to-spaces feature phrase
occurs in the lower-cased message, else 0. -/
def buildFeatureVector (message : Str) : List ℕ :=
  let msg := lowerStr message
  let severity := extractSeverity msg
  mapIdxAux
    (fun i name =>
      if i < 6 then vitalValue i
      else if hasSub msg (replUnderscores name.data) then severity else 0)
    0 FEATURE_NAMES

/-! ## predict_disease/index.ts — scaler, softmax, handler -/

/-- The `scaler.json` artifact: parallel `mean` and `std` arrays of finite
JSON numbers. -/
structure Scaler where
  mean : List ℚ
  std : List ℚ
deriving DecidableEq

/-- Read `l[i]` as JavaScript does: the value when in bounds, and the
`undefined` that immediately feeds arithmetic (hence `NaN`) when out of
bounds. -/
def atIdx (l : List ℚ) (i : ℕ) : JsNum :=
  match l.get? i with
  | some q => .num q
  | none => .nan

/-- Model of `(x || 1)`: replace a falsy read (`0`, out-of-bounds `undefined`, `NaN`)
by `1`. -/
def jsOr1 (x : JsNum) : JsNum := if jsFalsy x then .num 1 else x

/-- Model of `scaleInput(arr, scaler)`:
`arr.map((v, i) => (v - scaler.mean[i]) / (scaler.std[i] || 1))`. -/
def scaleInput (arr : List JsNum) (scaler : Scaler) : List JsNum :=
  mapIdxAux
    (fun i v => jsDiv (jsSub v (atIdx scaler.mean i)) (jsOr1 (atIdx scaler.std i)))
    0 arr

/-! ## booster_min.js — deterministic placeholder scorer -/

/-- ECMAScript `ToInt32`: reduce modulo `2^32` into `[-2^31, 2^31)`. -/
def jsToInt32 (x : ℤ) : ℤ :=
  let r := x % 4294967296
  if r < 2147483648 then r else r - 4294967296

/-- ECMAScript `ToUint32`: reduce modulo `2^32` into `[0, 2^32)`. -/
def jsToUint32 (x : ℤ) : ℕ := (x % 4294967296).toNat

/-- JavaScript `a ^ b` on 32-bit integers: bitwise xor of the two's-complement
representations, reinterpreted as a signed 32-bit integer. -/
def jsXor32 (a b : ℤ) : ℤ :=
  jsToInt32 (Nat.xor (jsToUint32 a) (jsToUint32 b) : ℤ)

/-- Model of `weightFor(labelIdx, featIdx)` (booster_min.js lines 15–26): hash the two
indices into `[0, 100000)` and map linearly into `[-0.5, 0.5)`.  Finite
multiplications are modelled exactly (JavaScript doubles round products above
`2^53`; no claim depends on the rounded digits, only on the result being a
finite number). -/
def weightFor (labelIdx featIdx : ℕ) : ℚ :=
  let seed : ℤ := jsXor32 ((labelIdx + 1) * 1315423911) ((featIdx + 1) * 2654435761)
  let mixed : ℕ := jsToUint32 (seed * 1610612741 + 805306457) % 100000
  (mixed : ℚ) / 100000 - 1 / 2

/-- Model of `typeof features[j] === "number" ? features[j] : 0`. -/
def jsValNum : JsVal → JsNum
  | some x => x
  | none => .num 0

/-- The inner `for (let j ...) s += w * v` loop of `predictXGB`, carrying the
feature index `j` and the accumulator `s`. -/
def dotRowAux (i : ℕ) : ℕ → List JsVal → JsNum → JsNum
  | _, [], s => s
  | j, v :: rest, s =>
      dotRowAux i (j + 1) rest
        (jsAdd s (jsMul (.num (weightFor i j)) (jsValNum v)))

/-- One label row's accumulated weighted sum, starting from `s = 0.0`. -/
def dotRow (i : ℕ) (features : List JsVal) : JsNum :=
  dotRowAux i 0 features (.num 0)

/-- Model of `((i * 37) % 7 - 3) * 0.02`, the per-label bias. -/
def biasFor (i : ℕ) : ℚ := (((i * 37 : ℕ) % 7 : ℚ) - 3) * (2 / 100)

/-- Model of `predictXGB(features)` (booster_min.js lines 35–58): one logit per label,
`logits[i] = Σ_j weightFor(i,j) * v_j + bias(i)`, with non-numeric entries
read as 0.  The `labels.json` artifact is the imported `labels` array; the
model takes it as an argument (the source's non-array fallback `nLabels = 3`
is unreachable for a JSON array artifact). -/
def predictXGB (labels : List String) (features : List JsVal) : List JsNum :=
  (List.range labels.length).map
    (fun i => jsAdd (dotRow i features) (.num (biasFor i)))

/-! ## softmax -/

/-- Model of `Math.exp` on a JavaScript number.  Its finite values are an abstract
parameter `expF`; the special values follow IEEE-754. -/
def jsExp (expF : ℚ → JsNum) : JsNum → JsNum
  | .nan => .nan
  | .posInf => .posInf
  | .negInf => .num 0
  | .num q => expF q

/-- Model of `softmax(arr)` (predict_disease/index.ts lines 25–30) over JavaScript
numbers: subtract the max, exponentiate, divide by the running sum started
at 0. -/
def softmax (expF : ℚ → JsNum) (arr : List JsNum) : List JsNum :=
  let m := jsMaxList arr
  let exps := arr.map (fun x => jsExp expF (jsSub x m))
  let sum := exps.foldl jsAdd (.num 0)
  exps.map (fun v => jsDiv v sum)

/-- Model of `Math.max(...arr)` in the idealised real model (the `[]` case, `-∞` in
JavaScript, is irrelevant there: `softmaxR []` is `[]` whatever this
returns). -/
def maxR : List ℝ → ℝ
  | [] => 0
  | x :: t => t.foldl max x

/-- The same `softmax` in the idealised real model: exact real arithmetic and
the genuine exponential, for the numerical claims. -/
noncomputable def softmaxR (arr : List ℝ) : List ℝ :=
  let m := maxR arr
  let exps := arr.map (fun x => Real.exp (x - m))
  let sum := exps.foldl (· + ·) 0
  exps.map (fun v => v / sum)

/-! ## handler tail: argmax, label lookup, response -/

/-- Model of `Array.prototype.indexOf` restricted to the number comparisons the handler
performs: first index whose element is `===` the search value, else `-1`. -/
def indexOfAux (x : JsNum) : List JsNum → ℕ → ℤ
  | [], _ => -1
  | y :: t, i => if jsStrictEq y x then (i : ℤ) else indexOfAux x t (i + 1)

/-- Model of `probs.indexOf(v)`. -/
def indexOfJs (l : List JsNum) (x : JsNum) : ℤ := indexOfAux x l 0

/-- The handler's `prediction` value: a label string, or the raw index when
the label lookup misses. -/
inductive Prediction where
  | label (s : String)
  | index (i : ℤ)
deriving DecidableEq, Repr

/-- The `serve` callback's observable outcome on the modelled path (after body
parse and artifact load): 405, 400 with an error message, 200 with a
prediction and probabilities, or the catch-all 500 (reached only by thrown
exceptions — body-parse or artifact failures — upstream of this model). -/
inductive HandlerResult where
  | methodNotAllowed
  | badRequest (error : String)
  | ok (prediction : Prediction) (probabilities : List JsNum)
  | serverError (message : String)
deriving DecidableEq, Repr

/-- HTTP status of a handler outcome. -/
def HandlerResult.status : HandlerResult → ℕ
  | .methodNotAllowed => 405
  | .badRequest _ => 400
  | .ok _ _ => 200
  | .serverError _ => 500

/-- Model of `labels[bestIndex] ?? bestIndex`. -/
def selectPrediction (labels : List String) (bestIndex : ℤ) : Prediction :=
  match (if 0 ≤ bestIndex then labels.get? bestIndex.toNat else none) with
  | some s => .label s
  | none => .index bestIndex

/-- Lines 56–65 of the handler: argmax by `indexOf(Math.max(...))`, label
lookup with `?? bestIndex` fallback, 200 response carrying the probabilities
verbatim. -/
def selectStage (labels : List String) (probs : List JsNum) : HandlerResult :=
  .ok (selectPrediction labels (indexOfJs probs (jsMaxList probs))) probs

/-- Lines 50–65: scale, score, normalise, select. -/
def respond (expF : ℚ → JsNum) (scaler : Scaler) (labels : List String)
    (arr : List JsNum) : HandlerResult :=
  let scaled := scaleInput arr scaler
  let logits := predictXGB labels (scaled.map some)
  let probs := softmax expF logits
  selectStage labels probs

/-- The POST path of the `serve` callback after a successful body parse and
artifact load: `none` models a non-array `symptoms` field. -/
def handlePredict (expF : ℚ → JsNum) (scaler : Scaler) (labels : List String)
    (symptoms : Option (List JsNum)) : HandlerResult :=
  match symptoms with
  | none => .badRequest "symptoms must be array"
  | some arr => respond expF scaler labels arr

/-- Mathematical maximum of a rational list (`Math.max` over a nonempty
spread), the reference value for the argmax claim. -/
def qmax : List ℚ → ℚ
  | [] => 0
  | x :: t => t.foldl max x

/-! ## Helper lemmas -/

theorem mapIdxAux_length {α β : Type} (f : ℕ → α → β) (i : ℕ) (l : List α) :
    (mapIdxAux f i l).length = l.length := by
  induction l generalizing i with
  | nil => rfl
  | cons x t ih => simp [mapIdxAux, ih]

theorem mapIdxAux_getElem? {α β : Type} (f : ℕ → α → β) (i k : ℕ) (l : List α) :
    (mapIdxAux f i l)[k]? = l[k]?.map (fun a => f (i + k) a) := by
  induction l generalizing i k with
  | nil => simp [mapIdxAux]
  | cons x t ih =>
    cases k with
    | zero => simp [mapIdxAux]
    | succ k =>
      simp only [mapIdxAux, List.getElem?_cons_succ, ih (i + 1) k]
      have : i + 1 + k = i + (k + 1) := by omega
      rw [this]

theorem lowerChar_not_upper (c : Char) :
    ¬(65 ≤ (lowerChar c).toNat ∧ (lowerChar c).toNat ≤ 90) := by
  unfold lowerChar
  by_cases h : 65 ≤ c.toNat ∧ c.toNat ≤ 90
  · rw [dif_pos h]
    intro hc
    have h2 : c.toNat + 32 ≤ 90 := hc.2
    omega
  · rw [dif_neg h]
    exact h

theorem lowerChar_idem (c : Char) : lowerChar (lowerChar c) = lowerChar c := by
  conv_lhs => rw [lowerChar]
  exact dif_neg (lowerChar_not_upper c)

theorem lowerStr_idem (s : Str) : lowerStr (lowerStr s) = lowerStr s := by
  simp only [lowerStr, List.map_map]
  exact List.map_congr_left (fun c _ => lowerChar_idem c)

theorem extractSeverity_lower (m : Str) :
    extractSeverity (lowerStr m) = extractSeverity m := by
  unfold extractSeverity
  rw [lowerStr_idem]

theorem extractSeverityAux_eq_find (L : List (String × ℕ)) (m : Str) :
    extractSeverityAux L m =
      ((L.find? (fun p => hasSub m p.1.data)).map Prod.snd).getD 1 := by
  induction L with
  | nil => rfl
  | cons p rest ih =>
    by_cases h : hasSub m p.1.data
    · simp [extractSeverityAux, List.find?, h]
    · simp [extractSeverityAux, List.find?, h, ih]

/-! ## Claims about feature extraction -/

/-- Claim C1: for every input text, the feature extractor returns a vector
of exactly 46 numbers, and slots 0 through 5 always hold the fixed vital
defaults age=25, gender=1, smoker=0, heart_rate=80, blood_pressure=120,
cholesterol_level=180, regardless of the text's content. -/
theorem C1_extract_shape_and_vitals (msg : Str) :
    (buildFeatureVector msg).length = 46 ∧
    (buildFeatureVector msg).take 6 = [25, 1, 0, 80, 120, 180] := by
  constructor
  · show (mapIdxAux _ 0 FEATURE_NAMES).length = 46
    rw [mapIdxAux_length]
    rfl
  · rfl

/-- Claim C2: the severity extractor returns the severity level of the first
keyword, in the lexicon's declared priority order, occurring case-insensitively
in the message, defaulting to 1; any message containing "severe" (in
particular one also containing "mild") yields 3. -/
theorem C2_severity_first_keyword (msg : Str) :
    extractSeverity msg =
      (((severityMap.find? (fun p => hasSub (lowerStr msg) p.1.data)).map
        Prod.snd).getD 1) ∧
    (hasSub (lowerStr msg) "severe".data = true → extractSeverity msg = 3) := by
  refine ⟨extractSeverityAux_eq_find _ _, ?_⟩
  intro h
  simp [extractSeverity, severityMap, extractSeverityAux, h]

/-- Witness for C2: a message containing both "MILD" and "severe" has
severity 3 regardless of word order in the text. -/
theorem C2_severity_first_keyword_witness :
    hasSub (lowerStr "mild at first but now severe".data) "severe".data = true ∧
    extractSeverity "mild at first but now severe".data = 3 := by
  have h : hasSub (lowerStr "mild at first but now severe".data) "severe".data
      = true := by decide
  exact ⟨h, (C2_severity_first_keyword _).2 h⟩

/-- Claim C3: for every text and every symptom slot i in [6,46), the extracted
vector's entry i equals the message's severity value if the slot's name with
underscores replaced by spaces occurs as a substring of the lower-cased text,
and 0 otherwise. -/
theorem C3_symptom_slot_substring (msg : Str) (i : ℕ) (h6 : 6 ≤ i)
    (h46 : i < 46) :
    (buildFeatureVector msg).getD i 0 =
      if hasSub (lowerStr msg) (replUnderscores (FEATURE_NAMES.getD i "").data)
      then extractSeverity msg else 0 := by
  have hFN : i < FEATURE_NAMES.length := by
    have : FEATURE_NAMES.length = 46 := rfl
    omega
  simp only [buildFeatureVector, List.getD_eq_getElem?_getD, mapIdxAux_getElem?,
    List.getElem?_eq_getElem hFN, Option.map_some', Option.getD_some,
    Nat.zero_add]
  rw [if_neg (by omega : ¬ i < 6), extractSeverity_lower]

/-- Witness for C3: in the message "dry cough", slot 7 ("cough") fires with
the default severity 1 because "cough" is a substring of "dry cough" —
substring detection lets a phrase nested in a longer phrase fire. -/
theorem C3_symptom_slot_substring_witness :
    (6 ≤ 7 ∧ 7 < 46) ∧ (buildFeatureVector "dry cough".data).getD 7 0 = 1 := by
  refine ⟨by omega, ?_⟩
  have h := C3_symptom_slot_substring "dry cough".data 7 (by omega) (by omega)
  rw [h]
  decide

/-! ## JsNum arithmetic lemmas -/

theorem jsSub_num_num (a b : ℚ) : jsSub (.num a) (.num b) = .num (a - b) := by
  simp [jsSub, jsNeg, jsAdd, sub_eq_add_neg]

theorem jsDiv_num_num (a b : ℚ) (hb : b ≠ 0) :
    jsDiv (.num a) (.num b) = .num (a / b) := by
  simp [jsDiv, hb]

theorem jsOr1_num (q : ℚ) : jsOr1 (.num q) = .num (if q = 0 then 1 else q) := by
  by_cases h : q = 0 <;> simp [jsOr1, jsFalsy, h]

theorem atIdx_lt {l : List ℚ} {i : ℕ} (h : i < l.length) :
    atIdx l i = .num (l.getD i 0) := by
  simp [atIdx, List.get?_eq_getElem?, List.getElem?_eq_getElem h,
    List.getD_eq_getElem _ _ h]

theorem atIdx_ge {l : List ℚ} {i : ℕ} (h : l.length ≤ i) : atIdx l i = .nan := by
  simp [atIdx, List.get?_eq_getElem?, List.getElem?_eq_none h]

theorem jsAdd_nan_left (b : JsNum) : jsAdd .nan b = .nan := by cases b <;> rfl

theorem jsAdd_nan_right (a : JsNum) : jsAdd a .nan = .nan := by cases a <;> rfl

theorem jsSub_nan_left (b : JsNum) : jsSub .nan b = .nan := by cases b <;> rfl

theorem jsSub_nan_right (a : JsNum) : jsSub a .nan = .nan := by cases a <;> rfl

theorem jsMul_nan_right (a : JsNum) : jsMul a .nan = .nan := by cases a <;> rfl

theorem jsDiv_nan_left (b : JsNum) : jsDiv .nan b = .nan := by cases b <;> rfl

theorem jsMax2_nan_left (b : JsNum) : jsMax2 .nan b = .nan := by cases b <;> rfl

theorem jsMax2_nan_right (a : JsNum) : jsMax2 a .nan = .nan := by cases a <;> rfl

theorem jsStrictEq_nan_right (a : JsNum) : jsStrictEq a .nan = false := by
  cases a <;> rfl

/-! ## Claim C4: elementwise scaling -/

/-- Claim C4: for matching lengths, scaling is elementwise
`(v[i] - mean[i]) / (std[i] or 1)`; a zero std is treated as 1 and never
causes a division error, and no clamping is performed. -/
theorem C4_scale_elementwise (v : List ℚ) (s : Scaler)
    (h1 : v.length = s.mean.length) (h2 : s.mean.length = s.std.length)
    (i : ℕ) (hi : i < v.length) :
    (scaleInput (v.map JsNum.num) s).getD i (.num 0) =
      .num ((v.getD i 0 - s.mean.getD i 0) /
        (if s.std.getD i 0 = 0 then 1 else s.std.getD i 0)) := by
  have hm : i < s.mean.length := by omega
  have hs : i < s.std.length := by omega
  have hv : i < (v.map JsNum.num).length := by simpa using hi
  simp only [scaleInput, List.getD_eq_getElem?_getD, mapIdxAux_getElem?,
    List.getElem?_eq_getElem hv, List.getElem?_eq_getElem hi,
    List.getElem?_eq_getElem hm, List.getElem?_eq_getElem hs,
    Option.map_some', Option.getD_some, Nat.zero_add, List.getElem_map]
  rw [atIdx_lt hm, atIdx_lt hs, List.getD_eq_getElem _ _ hm,
    List.getD_eq_getElem _ _ hs, jsSub_num_num, jsOr1_num]
  by_cases h0 : s.std[i] = 0
  · rw [if_pos h0, jsDiv_num_num _ _ one_ne_zero]
  · rw [if_neg h0, jsDiv_num_num _ _ h0]

/-- Witness for C4: scaling `[3]` with mean `[1]` and the degenerate std `[0]`
divides by 1 and yields 2 without error. -/
theorem C4_scale_elementwise_witness :
    (([(3 : ℚ)] : List ℚ).length = 1 ∧ (0 : ℚ) ∈ ([0] : List ℚ)) ∧
    (scaleInput ([(3 : ℚ)].map JsNum.num) ⟨[1], [0]⟩).getD 0 (.num 0) =
      .num 2 := by
  refine ⟨by norm_num, ?_⟩
  have h := C4_scale_elementwise [(3 : ℚ)] ⟨[1], [0]⟩ rfl rfl 0 (by norm_num)
  rw [h]
  norm_num

/-! ## Claim C6: real-model softmax -/

theorem foldl_add_sum (l : List ℝ) (a : ℝ) : l.foldl (· + ·) a = a + l.sum := by
  induction l generalizing a with
  | nil => simp
  | cons x t ih => simp [ih, add_assoc]

theorem sum_map_div (l : List ℝ) (c : ℝ) :
    (l.map (fun v => v / c)).sum = l.sum / c := by
  induction l with
  | nil => simp
  | cons x t ih => simp [ih, add_div]

theorem foldl_max_const (t : List ℝ) (c : ℝ) (h : ∀ x ∈ t, x = c) :
    t.foldl max c = c := by
  induction t with
  | nil => rfl
  | cons x s ih =>
    have hx : x = c := h x (List.mem_cons_self x s)
    rw [List.foldl_cons, hx, max_self]
    exact ih (fun y hy => h y (List.mem_cons_of_mem _ hy))

theorem softmaxR_eq (arr : List ℝ) :
    softmaxR arr =
      (arr.map (fun x => Real.exp (x - maxR arr))).map
        (fun v => v / (arr.map (fun x => Real.exp (x - maxR arr))).sum) := by
  unfold softmaxR
  simp only [foldl_add_sum, zero_add]

/-- Counterexample to C6 as stated: the empty list is a (vacuously finite)
logit vector, yet `softmax []` is `[]`, whose sum is 0, not 1 within 1e-9. -/
theorem C6_counterexample :
    (softmaxR []).sum = 0 ∧ ¬|(softmaxR []).sum - 1| ≤ 1 / 1000000000 := by
  have h : softmaxR [] = ([] : List ℝ) := rfl
  rw [h]
  norm_num

/-- Claim C6 (amended to nonempty input): for every nonempty finite logit
vector, softmax returns values that are all non-negative and sum to 1 within
1e-9, and all-equal logits yield the uniform distribution. -/
theorem C6_softmax_distribution (arr : List ℝ) (hne : arr ≠ []) :
    (∀ p ∈ softmaxR arr, 0 ≤ p) ∧
    |(softmaxR arr).sum - 1| ≤ 1 / 1000000000 ∧
    (∀ c, (∀ x ∈ arr, x = c) →
      softmaxR arr = arr.map (fun _ => 1 / (arr.length : ℝ))) := by
  have hpos : ∀ e ∈ arr.map (fun x => Real.exp (x - maxR arr)), 0 < e := by
    intro e he
    obtain ⟨x, _, rfl⟩ := List.mem_map.1 he
    exact Real.exp_pos _
  have hne' : arr.map (fun x => Real.exp (x - maxR arr)) ≠ [] := by
    simpa using hne
  have hsum : 0 < (arr.map (fun x => Real.exp (x - maxR arr))).sum :=
    List.sum_pos _ hpos hne'
  refine ⟨?_, ?_, ?_⟩
  · intro p hp
    rw [softmaxR_eq] at hp
    obtain ⟨e, he, rfl⟩ := List.mem_map.1 hp
    exact div_nonneg (hpos e he).le hsum.le
  · rw [softmaxR_eq, sum_map_div, div_self (ne_of_gt hsum)]
    norm_num
  · intro c hc
    have hmax : maxR arr = c := by
      cases arr with
      | nil => exact absurd rfl hne
      | cons x t =>
        have hx : x = c := hc x (List.mem_cons_self x t)
        show t.foldl max x = c
        rw [hx]
        exact foldl_max_const t c (fun y hy => hc y (List.mem_cons_of_mem _ hy))
    have hexps : arr.map (fun x => Real.exp (x - maxR arr)) =
        arr.map (fun _ => (1 : ℝ)) := by
      refine List.map_congr_left (fun x hx => ?_)
      rw [hmax, hc x hx, sub_self, Real.exp_zero]
    have hlen : (arr.map (fun _ => (1 : ℝ))).sum = (arr.length : ℝ) := by
      rw [List.map_const']
      simp [List.sum_replicate]
    rw [softmaxR_eq, hexps, hlen, List.map_map]
    refine List.map_congr_left (fun x _ => ?_)
    simp

/-- Witness for C6: logits `[1,1,1]` yield probabilities `[1/3,1/3,1/3]`. -/
theorem C6_softmax_distribution_witness :
    ([(1 : ℝ), 1, 1] ≠ []) ∧ softmaxR [(1 : ℝ), 1, 1] = [1 / 3, 1 / 3, 1 / 3] := by
  have hne : ([(1 : ℝ), 1, 1] ≠ []) := by simp
  have h := (C6_softmax_distribution [(1 : ℝ), 1, 1] hne).2.2 1 (by
    intro x hx
    fin_cases hx <;> rfl)
  refine ⟨hne, ?_⟩
  rw [h]
  norm_num

/-! ## Claim C7: first-argmax selection -/

theorem foldl_jsMax2_num (t : List ℚ) (a : ℚ) :
    (t.map JsNum.num).foldl jsMax2 (.num a) = .num (t.foldl max a) := by
  induction t generalizing a with
  | nil => rfl
  | cons x s ih => simpa [jsMax2] using ih (max a x)

theorem jsMaxList_map_num (l : List ℚ) (h : l ≠ []) :
    jsMaxList (l.map JsNum.num) = .num (qmax l) := by
  cases l with
  | nil => exact absurd rfl h
  | cons x t =>
    show ((x :: t).map JsNum.num).foldl jsMax2 .negInf = _
    simp only [List.map_cons, List.foldl_cons]
    exact foldl_jsMax2_num t x

theorem le_foldl_max (t : List ℚ) (a : ℚ) :
    a ≤ t.foldl max a ∧ ∀ x ∈ t, x ≤ t.foldl max a := by
  induction t generalizing a with
  | nil => simp
  | cons y s ih =>
    obtain ⟨h1, h2⟩ := ih (max a y)
    refine ⟨le_trans (le_max_left a y) h1, ?_⟩
    intro x hx
    rcases List.mem_cons.1 hx with rfl | hx'
    · exact le_trans (le_max_right a x) h1
    · exact h2 x hx'

theorem foldl_max_mem (t : List ℚ) (a : ℚ) :
    t.foldl max a = a ∨ t.foldl max a ∈ t := by
  induction t generalizing a with
  | nil => exact Or.inl rfl
  | cons x s ih =>
    rw [List.foldl_cons]
    rcases ih (max a x) with h | h
    · rcases max_choice a x with hm | hm
      · exact Or.inl (by rw [h, hm])
      · exact Or.inr (by rw [h, hm]; exact List.mem_cons_self x s)
    · exact Or.inr (List.mem_cons_of_mem _ h)

theorem qmax_mem (l : List ℚ) (h : l ≠ []) : qmax l ∈ l := by
  cases l with
  | nil => exact absurd rfl h
  | cons x t =>
    show t.foldl max x ∈ x :: t
    rcases foldl_max_mem t x with h' | h'
    · rw [h']; exact List.mem_cons_self x t
    · exact List.mem_cons_of_mem _ h'

theorem qmax_ge (l : List ℚ) (x : ℚ) (hx : x ∈ l) : x ≤ qmax l := by
  cases l with
  | nil => cases hx
  | cons y t =>
    show x ≤ t.foldl max y
    rcases List.mem_cons.1 hx with rfl | hx'
    · exact (le_foldl_max t x).1
    · exact (le_foldl_max t y).2 x hx'

theorem indexOfAux_num_spec (l : List ℚ) (M : ℚ) (hM : M ∈ l) : ∀ i0 : ℕ,
    ∃ k : ℕ, indexOfAux (.num M) (l.map JsNum.num) i0 = ((i0 : ℤ) + k) ∧
      k < l.length ∧ l.getD k 0 = M ∧ ∀ j < k, l.getD j 0 ≠ M := by
  induction l with
  | nil => cases hM
  | cons x t ih =>
    intro i0
    by_cases hx : x = M
    · refine ⟨0, ?_, by simp, by simp [hx], by omega⟩
      simp [indexOfAux, jsStrictEq, hx]
    · have hMt : M ∈ t := by
        rcases List.mem_cons.1 hM with h | h
        · exact absurd h.symm hx
        · exact h
      obtain ⟨k, h1, h2, h3, h4⟩ := ih hMt (i0 + 1)
      refine ⟨k + 1, ?_, by simp; omega, by simpa using h3, ?_⟩
      · have hne : jsStrictEq (JsNum.num x) (JsNum.num M) = false := by
          simp [jsStrictEq, hx]
        simp only [List.map_cons, indexOfAux, hne, Bool.false_eq_true, if_false]
        rw [h1]
        push_cast
        ring
      · intro j hj
        cases j with
        | zero => simpa using hx
        | succ j => simpa using h4 j (by omega)

/-- Claim C7: selection returns the first (lowest) index achieving the
maximum probability, breaking ties left-to-right; that index is mapped
through the label list when in bounds, and the raw index itself is returned
when out of bounds. -/
theorem C7_select_first_argmax (l : List ℚ) (labels : List String)
    (h : l ≠ []) :
    ∃ k : ℕ,
      indexOfJs (l.map JsNum.num) (jsMaxList (l.map JsNum.num)) = (k : ℤ) ∧
      k < l.length ∧
      l.getD k 0 = qmax l ∧
      (∀ j < k, l.getD j 0 < qmax l) ∧
      (∀ s, labels.get? k = some s →
        selectPrediction labels (k : ℤ) = .label s) ∧
      (labels.get? k = none →
        selectPrediction labels (k : ℤ) = .index (k : ℤ)) := by
  obtain ⟨k, h1, h2, h3, h4⟩ := indexOfAux_num_spec l (qmax l) (qmax_mem l h) 0
  refine ⟨k, ?_, h2, h3, ?_, ?_, ?_⟩
  · rw [indexOfJs, jsMaxList_map_num l h, h1]
    push_cast
    ring
  · intro j hj
    have hmem : l.getD j 0 ∈ l := by
      rw [List.getD_eq_getElem _ _ (by omega : j < l.length)]
      exact List.getElem_mem _
    exact lt_of_le_of_ne (qmax_ge l _ hmem) (h4 j hj)
  · intro s hs
    rw [List.get?_eq_getElem?] at hs
    simp [selectPrediction, List.get?_eq_getElem?, hs]
  · intro hs
    rw [List.get?_eq_getElem?] at hs
    simp [selectPrediction, List.get?_eq_getElem?, hs]

/-- Witness for C7: with tied probabilities `[1/2, 1/2]` and label list
`["flu"]`, the selected index is 0 (lowest tie) and maps to the label. -/
theorem C7_select_first_argmax_witness :
    indexOfJs ([(1 : ℚ) / 2, 1 / 2].map JsNum.num)
      (jsMaxList ([(1 : ℚ) / 2, 1 / 2].map JsNum.num)) = 0 ∧
    selectPrediction ["flu"] 0 = .label "flu" := by
  obtain ⟨k, h1, _, _, _, h5, _⟩ :=
    C7_select_first_argmax [(1 : ℚ) / 2, 1 / 2] ["flu"] (by simp)
  have hmax : jsMaxList ([(1 : ℚ) / 2, 1 / 2].map JsNum.num) =
      .num ((1 : ℚ) / 2) := by
    rw [jsMaxList_map_num _ (by simp)]
    simp [qmax]
  have h0 : indexOfJs ([(1 : ℚ) / 2, 1 / 2].map JsNum.num)
      (jsMaxList ([(1 : ℚ) / 2, 1 / 2].map JsNum.num)) = 0 := by
    rw [hmax]
    simp [indexOfJs, indexOfAux, jsStrictEq]
  have hk : (k : ℤ) = 0 := by rw [← h1, h0]
  have hk0 : k = 0 := by exact_mod_cast hk
  subst hk0
  exact ⟨h0, h5 "flu" rfl⟩

/-! ## Claim C8: placeholder scorer -/

theorem dotRowAux_map_jsValNum (i : ℕ) (fs : List JsVal) : ∀ (j : ℕ) (s : JsNum),
    dotRowAux i j (fs.map (fun v => some (jsValNum v))) s = dotRowAux i j fs s := by
  induction fs with
  | nil => intro j s; rfl
  | cons v t ih =>
    intro j s
    simp only [List.map_cons, dotRowAux]
    exact ih (j + 1) _

/-- Claim C8: the placeholder scorer is deterministic — a pure function of
the label artifact and the input vector, so identical inputs give identical
logits — and non-numeric entries in the input array are treated as 0 rather
than causing failure: replacing every entry by the number it is read as
(non-numbers becoming 0) leaves the logits unchanged, and a logit is
produced for every label. -/
theorem C8_predictXGB_deterministic (labels : List String)
    (fs fs' : List JsVal) :
    (fs = fs' → predictXGB labels fs = predictXGB labels fs') ∧
    predictXGB labels (fs.map (fun v => some (jsValNum v))) =
      predictXGB labels fs ∧
    (predictXGB labels fs).length = labels.length := by
  refine ⟨fun heq => by rw [heq], ?_, by simp [predictXGB]⟩
  unfold predictXGB dotRow
  exact List.map_congr_left
    (fun i _ => by rw [dotRowAux_map_jsValNum])

/-- Witness for C8: a concrete input containing a non-numeric entry scores
identically to the same input with that entry replaced by 0, twice over with
identical results, and yields one logit per label. -/
theorem C8_predictXGB_deterministic_witness :
    predictXGB ["flu", "cold"] [some (.num 1), none] =
      predictXGB ["flu", "cold"] [some (.num 1), some (.num 0)] ∧
    (predictXGB ["flu", "cold"] [some (.num 1), none]).length = 2 := by
  obtain ⟨h1, h2, h3⟩ :=
    C8_predictXGB_deterministic ["flu", "cold"] [some (.num 1), none]
      [some (.num 1), none]
  constructor
  · have := h2
    simp only [List.map_cons, List.map_nil, jsValNum] at this
    exact this.symm
  · exact h3

/-! ## NaN propagation through the pipeline -/

theorem foldl_jsAdd_nan (l : List JsNum) : l.foldl jsAdd .nan = .nan := by
  induction l with
  | nil => rfl
  | cons x t ih => simpa [jsAdd_nan_left] using ih

theorem foldl_jsMax2_nan (l : List JsNum) : l.foldl jsMax2 .nan = .nan := by
  induction l with
  | nil => rfl
  | cons x t ih => simpa [jsMax2_nan_left] using ih

theorem dotRowAux_nan (i : ℕ) (fs : List JsVal) : ∀ j : ℕ,
    dotRowAux i j fs .nan = .nan := by
  induction fs with
  | nil => intro _; rfl
  | cons v t ih =>
    intro j
    simp only [dotRowAux, jsAdd_nan_left]
    exact ih (j + 1)

theorem dotRowAux_mem_nan (i : ℕ) (fs : List JsVal)
    (hmem : some JsNum.nan ∈ fs) : ∀ (j : ℕ) (s : JsNum),
    dotRowAux i j fs s = .nan := by
  induction fs with
  | nil => cases hmem
  | cons v t ih =>
    intro j s
    by_cases hv : v = some JsNum.nan
    · subst hv
      simp only [dotRowAux, jsValNum, jsMul_nan_right, jsAdd_nan_right]
      exact dotRowAux_nan i t (j + 1)
    · have hmt : some JsNum.nan ∈ t := by
        rcases List.mem_cons.1 hmem with h | h
        · exact absurd h.symm hv
        · exact h
      exact ih hmt (j + 1) _

theorem predictXGB_nan (labels : List String) (features : List JsVal)
    (h : some JsNum.nan ∈ features) :
    predictXGB labels features = List.replicate labels.length .nan := by
  rw [List.eq_replicate_iff]
  refine ⟨by simp [predictXGB], ?_⟩
  intro b hb
  obtain ⟨i, _, rfl⟩ := List.mem_map.1 hb
  rw [dotRow, dotRowAux_mem_nan i features h 0, jsAdd_nan_left]

theorem softmax_replicate_nan (expF : ℚ → JsNum) (n : ℕ) (hn : n ≠ 0) :
    softmax expF (List.replicate n .nan) = List.replicate n .nan := by
  unfold softmax
  have hexps : (List.replicate n JsNum.nan).map
      (fun x => jsExp expF (jsSub x (jsMaxList (List.replicate n JsNum.nan)))) =
      List.replicate n JsNum.nan := by
    rw [List.map_replicate, jsSub_nan_left]
    rfl
  simp only [hexps]
  have hsum : (List.replicate n JsNum.nan).foldl jsAdd (.num 0) = .nan := by
    cases n with
    | zero => exact absurd rfl hn
    | succ m =>
      rw [List.replicate_succ, List.foldl_cons, jsAdd_nan_right]
      exact foldl_jsAdd_nan _
  rw [hsum, List.map_replicate]
  rfl

theorem jsMaxList_replicate_nan (n : ℕ) (hn : n ≠ 0) :
    jsMaxList (List.replicate n .nan) = .nan := by
  cases n with
  | zero => exact absurd rfl hn
  | succ m =>
    rw [jsMaxList, List.replicate_succ, List.foldl_cons, jsMax2_nan_right]
    exact foldl_jsMax2_nan _

theorem indexOfAux_nan (l : List JsNum) : ∀ i : ℕ, indexOfAux .nan l i = -1 := by
  induction l with
  | nil => intro _; rfl
  | cons x t ih =>
    intro i
    simp only [indexOfAux, jsStrictEq_nan_right, Bool.false_eq_true, if_false]
    exact ih (i + 1)

/-! ## Claim C5: no shape check -/

/-- Counterexample to C5 as stated: a `symptoms` array of length 3 against a
scaler of length 2 is not rejected — the handler answers 200 with prediction
-1 and all-NaN probabilities, not a ShapeMismatch error. -/
theorem C5_counterexample :
    ([JsNum.num 1, .num 2, .num 3].length ≠
      (Scaler.mk [0, 0] [1, 1]).mean.length) ∧
    handlePredict (fun q => .num q) ⟨[0, 0], [1, 1]⟩ ["a", "b"]
        (some [.num 1, .num 2, .num 3]) =
      .ok (.index (-1)) [.nan, .nan] ∧
    (handlePredict (fun q => .num q) ⟨[0, 0], [1, 1]⟩ ["a", "b"]
        (some [.num 1, .num 2, .num 3])).status = 200 := by
  refine ⟨by decide, by decide, rfl⟩

/-- Claim C5 (amended): a length mismatch between the input vector and the
scaler is not detected — no ShapeMismatch error is raised; the handler scales
anyway, producing an output of the input's length whose entries beyond the
scaler's arrays are NaN, and the request completes as a 200 success. -/
theorem C5_no_shape_check (expF : ℚ → JsNum) (s : Scaler)
    (labels : List String) (arr : List JsNum)
    (_hmis : arr.length ≠ s.mean.length) :
    (scaleInput arr s).length = arr.length ∧
    (∀ i, s.mean.length ≤ i → i < arr.length →
      (scaleInput arr s).getD i (.num 0) = .nan) ∧
    (handlePredict expF s labels (some arr)).status = 200 := by
  refine ⟨mapIdxAux_length _ _ _, ?_, rfl⟩
  intro i h1 h2
  have hi : i < arr.length := h2
  simp only [scaleInput, List.getD_eq_getElem?_getD, mapIdxAux_getElem?,
    List.getElem?_eq_getElem hi, Option.map_some', Option.getD_some,
    Nat.zero_add]
  rw [atIdx_ge h1, jsSub_nan_right, jsDiv_nan_left]

/-- Witness for C5 (amended): length-1 scaler, length-2 input. -/
theorem C5_no_shape_check_witness :
    (([JsNum.num 4, .num 5].length ≠ (Scaler.mk [0] [1]).mean.length) ∧
      (1 : ℕ) ≤ 1 ∧ (1 : ℕ) < 2) ∧
    (scaleInput [JsNum.num 4, .num 5] ⟨[0], [1]⟩).length = 2 ∧
    (scaleInput [JsNum.num 4, .num 5] ⟨[0], [1]⟩).getD 1 (.num 0) = .nan ∧
    (handlePredict (fun q => .num q) ⟨[0], [1]⟩ ["x"]
        (some [.num 4, .num 5])).status = 200 := by
  obtain ⟨h1, h2, h3⟩ :=
    C5_no_shape_check (fun q => .num q) ⟨[0], [1]⟩ ["x"]
      [JsNum.num 4, .num 5] (by decide)
  exact ⟨⟨by decide, by omega, by omega⟩, h1, h2 1 (by decide) (by decide), h3⟩

/-! ## Claim C9: non-finite values are not surfaced as errors -/

/-- Counterexample to C9 as stated: scaling this request produces NaN, yet
the handler answers 200 with the NaN probabilities in the body — not a
server error. -/
theorem C9_counterexample :
    JsNum.nan ∈ scaleInput [.num 1, .num 2] ⟨[0], [1]⟩ ∧
    handlePredict (fun q => .num q) ⟨[0], [1]⟩ ["a"]
        (some [.num 1, .num 2]) =
      .ok (.index (-1)) [.nan] ∧
    (handlePredict (fun q => .num q) ⟨[0], [1]⟩ ["a"]
        (some [.num 1, .num 2])).status ≠ 500 := by
  refine ⟨by decide, by decide, by decide⟩

/-- Claim C9 (amended): when scaling produces a NaN, no error is raised and
nothing is clamped — the request is answered as a normal 200 success whose
probabilities are all NaN and whose prediction falls back to the raw index
-1. -/
theorem C9_nonfinite_in_success (expF : ℚ → JsNum) (s : Scaler)
    (labels : List String) (arr : List JsNum) (hl : labels ≠ [])
    (h : JsNum.nan ∈ scaleInput arr s) :
    handlePredict expF s labels (some arr) =
      .ok (.index (-1)) (List.replicate labels.length .nan) ∧
    (handlePredict expF s labels (some arr)).status = 200 := by
  have hn : labels.length ≠ 0 := by
    simpa [List.length_eq_zero] using hl
  have hmain : handlePredict expF s labels (some arr) =
      .ok (.index (-1)) (List.replicate labels.length .nan) := by
    show respond expF s labels arr = _
    simp only [respond]
    rw [predictXGB_nan labels _ (List.mem_map_of_mem some h),
      softmax_replicate_nan expF _ hn]
    unfold selectStage indexOfJs
    rw [jsMaxList_replicate_nan _ hn, indexOfAux_nan]
    rfl
  exact ⟨hmain, by rw [hmain]; rfl⟩

/-- Witness for C9 (amended): concrete mismatched request whose scaled vector
contains NaN. -/
theorem C9_nonfinite_in_success_witness :
    (JsNum.nan ∈ scaleInput [.num 7, .num 8] ⟨[1], [2]⟩ ∧
      (["flu"] : List String) ≠ []) ∧
    handlePredict (fun q => .num q) ⟨[1], [2]⟩ ["flu"]
        (some [.num 7, .num 8]) =
      .ok (.index (-1)) (List.replicate 1 .nan) := by
  have hmem : JsNum.nan ∈ scaleInput [.num 7, .num 8] ⟨[1], [2]⟩ := by decide
  have h := C9_nonfinite_in_success (fun q => .num q) ⟨[1], [2]⟩ ["flu"]
    [.num 7, .num 8] (by simp) hmem
  exact ⟨⟨hmem, by simp⟩, h.1⟩

/-! ## Claim C10: degenerate probability vectors -/

/-- Claim C10: when the probability vector is empty or all-NaN (as the empty
logits of an empty label set, or non-finite arithmetic, produce),
`indexOf(Math.max(...))` returns -1, the label lookup falls through `??`, and
the selection stage returns prediction -1 in a 200 success response rather
than an error; and softmax of empty logits is indeed the empty vector. -/
theorem C10_degenerate_probs (labels : List String) (probs : List JsNum)
    (h : probs = [] ∨ ∀ p ∈ probs, p = JsNum.nan) :
    indexOfJs probs (jsMaxList probs) = -1 ∧
    selectStage labels probs = .ok (.index (-1)) probs ∧
    (selectStage labels probs).status = 200 ∧
    (∀ expF : ℚ → JsNum, softmax expF [] = []) := by
  have hidx : indexOfJs probs (jsMaxList probs) = -1 := by
    rcases h with rfl | hall
    · rfl
    · cases probs with
      | nil => rfl
      | cons p t =>
        have hp : p = JsNum.nan := hall p (List.mem_cons_self p t)
        subst hp
        have hmax : jsMaxList (JsNum.nan :: t) = .nan := by
          rw [jsMaxList, List.foldl_cons, jsMax2_nan_right]
          exact foldl_jsMax2_nan t
        rw [hmax, indexOfJs]
        exact indexOfAux_nan _ _
  refine ⟨hidx, ?_, rfl, fun _ => rfl⟩
  unfold selectStage
  rw [hidx]
  rfl

/-- Witness for C10: a single-entry all-NaN probability vector. -/
theorem C10_degenerate_probs_witness :
    (∀ p ∈ [JsNum.nan], p = JsNum.nan) ∧
    indexOfJs [JsNum.nan] (jsMaxList [JsNum.nan]) = -1 ∧
    selectStage ["x"] [JsNum.nan] = .ok (.index (-1)) [JsNum.nan] := by
  have h := C10_degenerate_probs ["x"] [JsNum.nan] (Or.inr (by decide))
  exact ⟨by decide, h.1, h.2.1⟩

end ChronoHealth
